import Mathlib

/-!
Shallow embedding of the compression filter in
src/core/channel/compress_filter.c: the channel-scoped configuration
(init_channel_elem / destroy_channel_elem), the metadata negotiation
(compression_md_filter / process_send_initial_metadata), and the per-call
drain-and-compress machine (continue_send_message / got_slice /
finish_send_message / send_done / compress_start_transport_stream_op).

Collaborators that are declared outside this file's source (the algorithm
name table and parser, the bitset test, the write-flag bits, the message
compressor) are modelled from the spec and carry a doc comment saying so.
Side effects (gpr_log warnings, reference acquisition/release, the values
the slice buffer takes over time) are instrumented as explicit outputs.
-/

/-- Closed enumeration of compression algorithm identifiers, in the C enum's
index order (GRPC_COMPRESS_NONE = 0 is the no-compression sentinel). -/
inductive grpc_compression_algorithm where
  | GRPC_COMPRESS_NONE
  | GRPC_COMPRESS_DEFLATE
  | GRPC_COMPRESS_GZIP
deriving DecidableEq, Repr

open grpc_compression_algorithm

/-- Number of known algorithm identifiers (GRPC_COMPRESS_ALGORITHMS_COUNT). -/
def GRPC_COMPRESS_ALGORITHMS_COUNT : Nat := 3

/-- Numeric index of an algorithm identifier (its C enum value). -/
def algorithm_index : grpc_compression_algorithm → Nat
  | GRPC_COMPRESS_NONE => 0
  | GRPC_COMPRESS_DEFLATE => 1
  | GRPC_COMPRESS_GZIP => 2

/-- All algorithm identifiers in index order: the iteration space of the C
loops over algo_idx from 0 to GRPC_COMPRESS_ALGORITHMS_COUNT - 1. -/
def all_algorithms : List grpc_compression_algorithm :=
  [GRPC_COMPRESS_NONE, GRPC_COMPRESS_DEFLATE, GRPC_COMPRESS_GZIP]

/-- Modelled from the spec: grpc_compression_algorithm_name, the
compile-time-associated canonical name of each member of the closed
algorithm enumeration (the sentinel's canonical name is "identity").
The function itself lives in the compression runtime, not in this file's
source. -/
def grpc_compression_algorithm_name : grpc_compression_algorithm → String
  | GRPC_COMPRESS_NONE => "identity"
  | GRPC_COMPRESS_DEFLATE => "deflate"
  | GRPC_COMPRESS_GZIP => "gzip"

/-- Modelled from the spec: grpc_compression_algorithm_parse, the lookup of a
textual value against the known-algorithm name table; none for an
unknown/unparseable name. Lives in the compression runtime, not in this
file's source. -/
def grpc_compression_algorithm_parse (s : String) : Option grpc_compression_algorithm :=
  if s = "identity" then some GRPC_COMPRESS_NONE
  else if s = "deflate" then some GRPC_COMPRESS_DEFLATE
  else if s = "gzip" then some GRPC_COMPRESS_GZIP
  else none

/-- Channel-level compression options: the enabled-algorithm bitset and the
default algorithm (grpc_compression_options). -/
structure grpc_compression_options where
  enabled_algorithms_bitset : Nat
  default_compression_algorithm : grpc_compression_algorithm
deriving DecidableEq

/-- Modelled from the spec: grpc_compression_options_is_algorithm_enabled,
membership of an algorithm in the fixed-size enabled bitset (bit position =
the algorithm's index). Lives in the compression runtime, not in this
file's source. -/
def grpc_compression_options_is_algorithm_enabled
    (opts : grpc_compression_options) (a : grpc_compression_algorithm) : Bool :=
  Nat.testBit opts.enabled_algorithms_bitset (algorithm_index a)

/-- Modelled from the spec: the explicit per-operation "do not compress"
write-flag bit (GRPC_WRITE_NO_COMPRESS, a fixed bit of the 32-bit flag
word; declared in the public headers, not in this file's source). -/
def GRPC_WRITE_NO_COMPRESS : Nat := 2

/-- Modelled from the spec: the per-message "internally compressed" flag bit
(GRPC_WRITE_INTERNAL_COMPRESS, a fixed bit of the 32-bit flag word;
declared in the transport headers, not in this file's source). -/
def GRPC_WRITE_INTERNAL_COMPRESS : Nat := 2147483648

/-- Modelled from the spec: the fixed wire key under which a call requests an
algorithm (GRPC_COMPRESS_REQUEST_ALGORITHM_KEY, declared in
compress_filter.h, not in this file's source). -/
def GRPC_COMPRESS_REQUEST_ALGORITHM_KEY : String := "grpc-internal-encoding-request"

/-- An interned metadata element: a protocol header key/value pair. Interning
makes equal strings pointer-equal, so pointer comparison of keys in the C is
string comparison here. -/
structure mdelem where
  key : String
  value : String
deriving DecidableEq, Repr

/-- The channel-scoped state of the filter (channel_data in the C). The
precomputed per-algorithm element table is partial: init_channel_elem skips
disabled algorithms, leaving their entries unpopulated (none here,
uninitialized memory in the C). -/
structure channel_data where
  mdstr_request_compression_algorithm_key : String
  mdstr_outgoing_compression_algorithm_key : String
  mdstr_compression_capabilities_key : String
  mdelem_compression_algorithms : grpc_compression_algorithm → Option mdelem
  mdelem_accept_encoding : mdelem
  default_compression_algorithm : grpc_compression_algorithm
  compression_options : grpc_compression_options

/-- A reference-counted metadata handle named by the channel construction and
teardown code, at the granularity the source acquires and releases them:
the three interned key strings, the per-algorithm precomputed element table
entries, and the accept-encoding element. -/
inductive md_handle where
  | request_key
  | outgoing_key
  | capabilities_key
  | algorithm_elem (a : grpc_compression_algorithm)
  | accept_encoding_elem
deriving DecidableEq, Repr

/-- init_channel_elem (compress_filter.c:264-327), instrumented with the list
of reference-counted handles it acquires. Input is the channel-argument
data it reads (the enabled bitset and default algorithm); none models the
fatal GPR_ASSERT when the default algorithm is not enabled. The loop over
all algorithm indices skips disabled ones (their table entry stays
unpopulated) and collects the canonical names of enabled algorithms with
index above 0 for the comma-joined accept-encoding value. -/
def init_channel_elem (bitset : Nat) (dflt : grpc_compression_algorithm) :
    Option (channel_data × List md_handle) :=
  let opts : grpc_compression_options := ⟨bitset, dflt⟩
  if grpc_compression_options_is_algorithm_enabled opts dflt = false then
    none
  else
    let step := fun (acc : (grpc_compression_algorithm → Option mdelem) × List String × List md_handle)
        (a : grpc_compression_algorithm) =>
      if grpc_compression_options_is_algorithm_enabled opts a = false then acc
      else
        (fun x => if x = a then
            some ⟨"grpc-encoding", grpc_compression_algorithm_name a⟩
          else acc.1 x,
         if algorithm_index a > 0 then acc.2.1 ++ [grpc_compression_algorithm_name a]
         else acc.2.1,
         acc.2.2 ++ [md_handle.algorithm_elem a])
    let r := all_algorithms.foldl step (fun _ => none, [], [])
    some ({ mdstr_request_compression_algorithm_key := GRPC_COMPRESS_REQUEST_ALGORITHM_KEY,
            mdstr_outgoing_compression_algorithm_key := "grpc-encoding",
            mdstr_compression_capabilities_key := "grpc-accept-encoding",
            mdelem_compression_algorithms := r.1,
            mdelem_accept_encoding := ⟨"grpc-accept-encoding", String.intercalate "," r.2.1⟩,
            default_compression_algorithm := dflt,
            compression_options := opts },
          [md_handle.request_key, md_handle.outgoing_key, md_handle.capabilities_key]
            ++ r.2.2 ++ [md_handle.accept_encoding_elem])

/-- destroy_channel_elem (compress_filter.c:330-342), instrumented as the list
of handles it releases: the three key strings, then the per-algorithm table
entry for EVERY algorithm index 0 .. GRPC_COMPRESS_ALGORITHMS_COUNT - 1
(the loop does not test whether init populated the entry), then the
accept-encoding element. -/
def destroy_channel_elem (_channeld : channel_data) : List md_handle :=
  [md_handle.request_key, md_handle.outgoing_key, md_handle.capabilities_key]
    ++ all_algorithms.map md_handle.algorithm_elem
    ++ [md_handle.accept_encoding_elem]

/-- A slice: one owned chunk of message bytes (gpr_slice). -/
abbrev Slice := List Nat

/-- One chunk the upstream byte-source will yield: ready means
grpc_byte_stream_next returns it synchronously (returns nonzero); not ready
means next returns 0 after registering the got_slice continuation, and the
executor later fires that continuation with this chunk's slice. -/
structure Chunk where
  ready : Bool
  slice : Slice
deriving DecidableEq, Repr

/-- Accumulated byte length of a slice buffer (the gpr_slice_buffer.length
field: total bytes over all slices). -/
def slice_buffer_length (buf : List Slice) : Nat := (buf.map List.length).sum

/-- Total bytes carried by a list of chunks. -/
def chunks_length (cs : List Chunk) : Nat := (cs.map fun c => c.slice.length).sum

/-- Where control stands after running the drain code over the remaining
chunks: finished means finish_send_message was called (rest = chunks the
source still holds); suspended means grpc_byte_stream_next registered the
got_slice continuation for a pending slice; exhausted means the code asked
the source for a chunk it does not have (outside the byte-source contract:
in the real collaborator this request is undefined). -/
inductive ContinueResult where
  | finished (buf : List Slice) (rest : List Chunk)
  | suspended (buf : List Slice) (pending : Slice) (rest : List Chunk)
  | exhausted (buf : List Slice)
deriving DecidableEq, Repr

/-- continue_send_message (compress_filter.c:204-216): the synchronous drain
loop. While the byte-source yields a slice synchronously, append it to the
slice buffer and, when send_length equals the buffer's accumulated length,
call finish_send_message and break. The second component instruments the
value of calld->slices after each gpr_slice_buffer_add (each loop-body
execution appends one entry). -/
def continue_send_message (send_length : Nat) (buf : List Slice) :
    List Chunk → ContinueResult × List (List Slice)
  | [] => (ContinueResult.exhausted buf, [])
  | c :: rest =>
    if c.ready then
      let buf' := buf ++ [c.slice]
      if send_length = slice_buffer_length buf' then
        (ContinueResult.finished buf' rest, [buf'])
      else
        let r := continue_send_message send_length buf' rest
        (r.1, buf' :: r.2)
    else (ContinueResult.suspended buf c.slice rest, [])

/-- got_slice (compress_filter.c:193-202): the continuation fired when a
pending chunk arrives. Append the incoming slice; if send_length equals the
buffer's accumulated length, call finish_send_message, else re-enter
continue_send_message on the rest of the source. Instrumented like
continue_send_message. -/
def got_slice (send_length : Nat) (buf : List Slice) (incoming : Slice)
    (rest : List Chunk) : ContinueResult × List (List Slice) :=
  let buf' := buf ++ [incoming]
  if send_length = slice_buffer_length buf' then
    (ContinueResult.finished buf' rest, [buf'])
  else
    let r := continue_send_message send_length buf' rest
    (r.1, buf' :: r.2)

/-- Length measure used to show that resuming a suspended drain terminates:
each resumption consumes at least the pending chunk. -/
def ContinueResult.restLen : ContinueResult → Nat
  | ContinueResult.suspended _ _ rest => rest.length + 1
  | _ => 0

theorem continue_send_message_restLen (send_length : Nat) (buf : List Slice)
    (cs : List Chunk) :
    (continue_send_message send_length buf cs).1.restLen ≤ cs.length := by
  induction cs generalizing buf with
  | nil => simp [continue_send_message, ContinueResult.restLen]
  | cons c rest ih =>
    by_cases hr : c.ready
    · by_cases hl : send_length = slice_buffer_length (buf ++ [c.slice])
      · simp [continue_send_message, hr, hl, ContinueResult.restLen]
      · simp only [continue_send_message, hr, if_true, hl, if_false]
        exact le_trans (ih _) (Nat.le_succ _)
    · simp [continue_send_message, hr, ContinueResult.restLen]

theorem got_slice_restLen (send_length : Nat) (buf : List Slice) (s : Slice)
    (rest : List Chunk) :
    (got_slice send_length buf s rest).1.restLen ≤ rest.length := by
  by_cases hl : send_length = slice_buffer_length (buf ++ [s])
  · simp [got_slice, hl, ContinueResult.restLen]
  · simp only [got_slice, hl, if_false]
    exact continue_send_message_restLen _ _ _

/-- Executor model: whenever the drain suspended, the byte-source eventually
delivers the pending slice and the executor fires the got_slice
continuation (the only re-entry point after suspension). Collects the
instrumented buffer values of every resumption. -/
def drive_continuations (send_length : Nat) : ContinueResult → ContinueResult × List (List Slice)
  | ContinueResult.suspended buf s rest =>
    let d := drive_continuations send_length (got_slice send_length buf s rest).1
    (d.1, (got_slice send_length buf s rest).2 ++ d.2)
  | ContinueResult.finished buf rest => (ContinueResult.finished buf rest, [])
  | ContinueResult.exhausted buf => (ContinueResult.exhausted buf, [])
termination_by r => r.restLen
decreasing_by
  simp only [ContinueResult.restLen]
  exact Nat.lt_succ_of_le (got_slice_restLen _ _ _ _)

/-- One whole drain of a message: enter continue_send_message with the empty
slice buffer (as compress_start_transport_stream_op does) and resume every
suspension until the machine neither suspends nor loops. The second
component is the full instrumented history of calld->slices, one entry per
append, across both the synchronous loop and the resumed continuations. -/
def drain (send_length : Nat) (cs : List Chunk) : ContinueResult × List (List Slice) :=
  ((drive_continuations send_length (continue_send_message send_length [] cs).1).1,
   (continue_send_message send_length [] cs).2 ++
     (drive_continuations send_length (continue_send_message send_length [] cs).1).2)

/-- A completion callback handle (grpc_closure pointer identity): either a
closure owned by an upper layer (the original on_complete), or the filter's
own send_done closure bound to this call. -/
inductive grpc_closure (κ : Type) where
  | user (k : κ)
  | send_done_closure
deriving DecidableEq, Repr

/-- A byte stream handle as the operation carries it: either the upstream
byte-source of an incoming send (with its declared length, flags and the
chunks it will yield), or the filter's replacement slice-buffer stream
(grpc_slice_buffer_stream over calld->slices). -/
inductive grpc_byte_stream where
  | source (len : Nat) (flags : Nat) (chunks : List Chunk)
  | slice_stream (backing : List Slice) (flags : Nat)
deriving DecidableEq, Repr

/-- The length field of a byte stream (for a slice-buffer stream, the backing
buffer's accumulated byte length). -/
def grpc_byte_stream.stream_length : grpc_byte_stream → Nat
  | grpc_byte_stream.source len _ _ => len
  | grpc_byte_stream.slice_stream backing _ => slice_buffer_length backing

/-- The flags field of a byte stream. -/
def grpc_byte_stream.stream_flags : grpc_byte_stream → Nat
  | grpc_byte_stream.source _ flags _ => flags
  | grpc_byte_stream.slice_stream _ flags => flags

/-- The chunks a byte stream will yield to grpc_byte_stream_next (a
slice-buffer stream yields each backing slice synchronously). -/
def grpc_byte_stream.stream_chunks : grpc_byte_stream → List Chunk
  | grpc_byte_stream.source _ _ chunks => chunks
  | grpc_byte_stream.slice_stream backing _ => backing.map fun s => ⟨true, s⟩

/-- A transport stream operation (grpc_transport_stream_op). Only the fields
this filter reads or writes are explicit; other_fields stands, opaquely,
for every remaining field of the C struct (recv paths, cancellation,
trailing metadata, ...), which the filter copies verbatim.
send_initial_metadata is a pointer in the C: the field holds the batch's
contents at arrival, and functions that mutate the pointed-to batch return
the new contents separately, leaving the field itself untouched. -/
structure grpc_transport_stream_op (κ ρ : Type) where
  send_initial_metadata : Option (List mdelem)
  send_message : Option grpc_byte_stream
  on_complete : grpc_closure κ
  other_fields : ρ
deriving DecidableEq, Repr

/-- The call-scoped state of the filter (call_data in the C). post_send and
the send_op snapshot are uninitialized until the machine is entered; the
model simply carries whatever value the field happens to hold. -/
structure call_data (κ ρ : Type) where
  slices : List Slice
  compression_algorithm : grpc_compression_algorithm
  has_compression_algorithm : Bool
  send_op : grpc_transport_stream_op κ ρ
  send_length : Nat
  send_flags : Nat
  post_send : grpc_closure κ
deriving DecidableEq, Repr

/-- init_call_elem (compress_filter.c:243-253): the slice buffer starts empty
and no algorithm has been resolved; every other member keeps whatever the
allocator handed over (the C leaves it uninitialized). -/
def init_call_elem (mem : call_data κ ρ) : call_data κ ρ :=
  { mem with slices := [], has_compression_algorithm := false }

/-- compression_md_filter (compress_filter.c:89-117): for one element of the
incoming initial-metadata batch, if its key is the requested-algorithm key,
parse its value (unknown name: warn and fall back to the sentinel), then
check the result against the enabled set (disabled: warn and fall back to
the sentinel), record the outcome as authoritative and drop the element
(none); any other element passes through. The Nat counts the gpr_log
warnings emitted. -/
def compression_md_filter (channeld : channel_data) (calld : call_data κ ρ)
    (md : mdelem) : Option mdelem × call_data κ ρ × Nat :=
  if md.key = channeld.mdstr_request_compression_algorithm_key then
    let parsed := grpc_compression_algorithm_parse md.value
    let a1 := parsed.getD GRPC_COMPRESS_NONE
    let w1 : Nat := if parsed.isSome then 0 else 1
    let enabled := grpc_compression_options_is_algorithm_enabled
      channeld.compression_options a1
    let a2 := if enabled then a1 else GRPC_COMPRESS_NONE
    let w2 : Nat := if enabled then 0 else 1
    (none,
     { calld with compression_algorithm := a2, has_compression_algorithm := true },
     w1 + w2)
  else (some md, calld, 0)

/-- grpc_metadata_batch_filter as this filter uses it: apply
compression_md_filter to each element in order, keeping the elements it
returns and dropping the ones it maps to none, threading the call state and
summing the warnings. -/
def grpc_metadata_batch_filter (channeld : channel_data) (calld : call_data κ ρ) :
    List mdelem → List mdelem × call_data κ ρ × Nat
  | [] => ([], calld, 0)
  | md :: rest =>
    let r1 := compression_md_filter channeld calld md
    let r2 := grpc_metadata_batch_filter channeld r1.2.1 rest
    ((match r1.1 with
      | some m => m :: r2.1
      | none => r2.1),
     r2.2.1, r1.2.2 + r2.2.2)

/-- process_send_initial_metadata (compress_filter.c:133-158): filter the
batch for a requested algorithm; if none was found, adopt the channel
default; then append (GRPC_MDELEM_REF, shared reference) the precomputed
selected-algorithm element for the chosen algorithm and the channel's
accept-encoding element. Reading an unpopulated table entry is an
uninitialized-memory read in the C; the model yields a placeholder element.
Returns the batch's new contents, the call state and the warning count. -/
def process_send_initial_metadata (channeld : channel_data) (calld : call_data κ ρ)
    (initial_metadata : List mdelem) : List mdelem × call_data κ ρ × Nat :=
  let r := grpc_metadata_batch_filter channeld calld initial_metadata
  let calld :=
    if r.2.1.has_compression_algorithm then r.2.1
    else { r.2.1 with compression_algorithm := channeld.default_compression_algorithm,
                      has_compression_algorithm := true }
  (r.1 ++ [(channeld.mdelem_compression_algorithms calld.compression_algorithm).getD ⟨"", ""⟩,
           channeld.mdelem_accept_encoding],
   calld, r.2.2)

/-- skip_compression (compress_filter.c:119-130): skip when a call-specific
algorithm was resolved and it is the sentinel; use the call-specific
algorithm otherwise; with no per-call override, skip exactly when the
channel default is the sentinel. -/
def skip_compression (channeld : channel_data) (calld : call_data κ ρ) : Bool :=
  if calld.has_compression_algorithm then
    calld.compression_algorithm = GRPC_COMPRESS_NONE
  else
    channeld.default_compression_algorithm = GRPC_COMPRESS_NONE

/-- send_done (compress_filter.c:163-168): the completion spliced under the
forwarded operation. When downstream fires it with a success flag, reset
(empty) the slice buffer and invoke the saved post_send callback with the
very same flag. The list is the instrumented record of completion
invocations this firing performs. -/
def send_done (calld : call_data κ ρ) (success : Int) :
    call_data κ ρ × List (grpc_closure κ × Int) :=
  ({ calld with slices := [] }, [(calld.post_send, success)])

/-- finish_send_message (compress_filter.c:170-191), parameterized by the
compression transform grpc_msg_compress — modelled from the spec as
compress(algorithm, input) with none meaning "declined, use original".
If the transform succeeds its output replaces the slice buffer and the
send flags gain GRPC_WRITE_INTERNAL_COMPRESS; otherwise buffer and flags
stay as they are. Then a replacement slice-buffer stream over the (possibly
swapped) buffer is substituted as the operation's message, the original
on_complete is saved into post_send, the filter's send_done closure takes
its place, and the operation is forwarded (returned). -/
def finish_send_message
    (grpc_msg_compress : grpc_compression_algorithm → List Slice → Option (List Slice))
    (calld : call_data κ ρ) : call_data κ ρ × grpc_transport_stream_op κ ρ :=
  let tmp := grpc_msg_compress calld.compression_algorithm calld.slices
  let slices := tmp.getD calld.slices
  let send_flags :=
    if tmp.isSome then calld.send_flags ||| GRPC_WRITE_INTERNAL_COMPRESS
    else calld.send_flags
  let op := { calld.send_op with
              send_message := some (grpc_byte_stream.slice_stream slices send_flags),
              on_complete := grpc_closure.send_done_closure }
  ({ calld with slices := slices, send_flags := send_flags,
                post_send := calld.send_op.on_complete, send_op := op },
   op)

/-- What compress_start_transport_stream_op did with the operation: forwarded
it unchanged down the stack, or entered the drain-and-compress machine
(snapshotting the operation into the given call state and invoking
continue_send_message on the message's byte-source). -/
inductive StartResult (κ ρ : Type) where
  | forwarded (op : grpc_transport_stream_op κ ρ)
  | entered (calld : call_data κ ρ)
deriving DecidableEq, Repr

/-- The initial-metadata step of compress_start_transport_stream_op
(compress_filter.c:225-227): when the operation carries an initial-metadata
batch, run process_send_initial_metadata over its contents. Returns the
updated call state and, when processing happened, the batch's new contents
(the operation's pointer field itself is untouched). -/
def md_step (channeld : channel_data) (calld : call_data κ ρ)
    (op : grpc_transport_stream_op κ ρ) : call_data κ ρ × Option (List mdelem) :=
  match op.send_initial_metadata with
  | some batch =>
    let r := process_send_initial_metadata channeld calld batch
    (r.2.1, some r.1)
  | none => (calld, none)

/-- compress_start_transport_stream_op (compress_filter.c:218-240): process
initial metadata if present; then, when the operation carries a message
whose compression is not skipped and whose flags lack the "do not compress"
bit, snapshot the whole operation and the message's length and flags into
the call state and enter the drain machine; otherwise pass the operation
down the stack unchanged. Returns the call state, the processed batch
contents (if any) and what happened to the operation. -/
def compress_start_transport_stream_op (channeld : channel_data)
    (calld : call_data κ ρ) (op : grpc_transport_stream_op κ ρ) :
    call_data κ ρ × Option (List mdelem) × StartResult κ ρ :=
  let m := md_step channeld calld op
  match op.send_message with
  | some bs =>
    if skip_compression channeld m.1 = false ∧ bs.stream_flags &&& GRPC_WRITE_NO_COMPRESS = 0 then
      let calld2 := { m.1 with send_op := op, send_length := bs.stream_length,
                               send_flags := bs.stream_flags }
      (calld2, m.2, StartResult.entered calld2)
    else (m.1, m.2, StartResult.forwarded op)
  | none => (m.1, m.2, StartResult.forwarded op)

/-- Invariant carried along the drain: at a finish or at a source-exhaustion
point the buffer holds exactly send_length bytes; at a suspension point the
buffer plus the pending slice plus the source's remaining chunks hold
exactly send_length bytes. -/
def drain_inv (L : Nat) : ContinueResult → Prop
  | ContinueResult.finished b _ => slice_buffer_length b = L
  | ContinueResult.suspended b s rest =>
      slice_buffer_length b + s.length + chunks_length rest = L
  | ContinueResult.exhausted b => slice_buffer_length b = L

/-- A compression transform that always declines (grpc_msg_compress reporting
"not worth compressing" on every input). -/
def compress_decline : grpc_compression_algorithm → List Slice → Option (List Slice) :=
  fun _ _ => none

/-- A compression transform that always succeeds with a fixed output. -/
def compress_const : grpc_compression_algorithm → List Slice → Option (List Slice) :=
  fun _ _ => some [[0]]

/-- A concrete call state whose incoming send flags already carry the
"internally compressed" bit. -/
def calld_flagged : call_data Nat Unit :=
  { slices := [[1]], compression_algorithm := GRPC_COMPRESS_GZIP,
    has_compression_algorithm := true,
    send_op := { send_initial_metadata := none, send_message := none,
                 on_complete := grpc_closure.user 0, other_fields := () },
    send_length := 1, send_flags := GRPC_WRITE_INTERNAL_COMPRESS,
    post_send := grpc_closure.user 0 }

/-- A concrete memory image for a freshly allocated call element. -/
def memW : call_data Nat Unit :=
  { slices := [[7]], compression_algorithm := GRPC_COMPRESS_DEFLATE,
    has_compression_algorithm := true,
    send_op := { send_initial_metadata := none, send_message := none,
                 on_complete := grpc_closure.user 0, other_fields := () },
    send_length := 5, send_flags := 3, post_send := grpc_closure.user 1 }

/-- A concrete channel state. -/
def channeldW : channel_data :=
  { mdstr_request_compression_algorithm_key := GRPC_COMPRESS_REQUEST_ALGORITHM_KEY,
    mdstr_outgoing_compression_algorithm_key := "grpc-encoding",
    mdstr_compression_capabilities_key := "grpc-accept-encoding",
    mdelem_compression_algorithms := fun a =>
      some ⟨"grpc-encoding", grpc_compression_algorithm_name a⟩,
    mdelem_accept_encoding := ⟨"grpc-accept-encoding", "deflate,gzip"⟩,
    default_compression_algorithm := GRPC_COMPRESS_GZIP,
    compression_options := ⟨7, GRPC_COMPRESS_GZIP⟩ }

/-- A concrete call state with a resolved non-trivial algorithm. -/
def calldE : call_data Nat Unit :=
  { slices := [], compression_algorithm := GRPC_COMPRESS_DEFLATE,
    has_compression_algorithm := true,
    send_op := { send_initial_metadata := none, send_message := none,
                 on_complete := grpc_closure.user 0, other_fields := () },
    send_length := 0, send_flags := 0, post_send := grpc_closure.user 0 }

/-- A concrete send-message operation carrying a three-byte message whose
single chunk is ready. -/
def opE : grpc_transport_stream_op Nat Unit :=
  { send_initial_metadata := none,
    send_message := some (grpc_byte_stream.source 3 0 [Chunk.mk true [1, 2, 3]]),
    on_complete := grpc_closure.user 42, other_fields := () }

/-- A concrete send-message operation whose flags carry the explicit
"do not compress" bit. -/
def opNC : grpc_transport_stream_op Nat Unit :=
  { send_initial_metadata := none,
    send_message := some (grpc_byte_stream.source 1 GRPC_WRITE_NO_COMPRESS
      [Chunk.mk true [5]]),
    on_complete := grpc_closure.user 7, other_fields := () }

theorem parse_name_roundtrip (a : grpc_compression_algorithm) :
    grpc_compression_algorithm_parse (grpc_compression_algorithm_name a) = some a := by
  cases a <;> rfl

theorem init_channel_elem_fields (bitset : Nat) (dflt : grpc_compression_algorithm)
    (channeld : channel_data) (acquired : List md_handle)
    (h : init_channel_elem bitset dflt = some (channeld, acquired)) :
    channeld.mdstr_request_compression_algorithm_key = GRPC_COMPRESS_REQUEST_ALGORITHM_KEY ∧
    channeld.compression_options = ⟨bitset, dflt⟩ ∧
    channeld.default_compression_algorithm = dflt := by
  unfold init_channel_elem at h
  cases hd : grpc_compression_options_is_algorithm_enabled ⟨bitset, dflt⟩ dflt with
  | false => simp [hd] at h
  | true =>
    simp only [hd, Bool.true_eq_false, if_false, Option.some.injEq, Prod.mk.injEq] at h
    obtain ⟨hcd, -⟩ := h
    subst hcd
    exact ⟨rfl, rfl, rfl⟩

theorem init_channel_elem_table (bitset : Nat) (dflt : grpc_compression_algorithm)
    (channeld : channel_data) (acquired : List md_handle)
    (h : init_channel_elem bitset dflt = some (channeld, acquired))
    (a : grpc_compression_algorithm)
    (ha : Nat.testBit bitset (algorithm_index a) = true) :
    channeld.mdelem_compression_algorithms a =
      some ⟨"grpc-encoding", grpc_compression_algorithm_name a⟩ := by
  unfold init_channel_elem at h
  cases hd : grpc_compression_options_is_algorithm_enabled ⟨bitset, dflt⟩ dflt with
  | false => simp [hd] at h
  | true =>
    simp only [hd, Bool.true_eq_false, if_false, Option.some.injEq, Prod.mk.injEq] at h
    obtain ⟨hcd, -⟩ := h
    subst hcd
    cases h0 : grpc_compression_options_is_algorithm_enabled ⟨bitset, dflt⟩ GRPC_COMPRESS_NONE <;>
    cases h1 : grpc_compression_options_is_algorithm_enabled ⟨bitset, dflt⟩ GRPC_COMPRESS_DEFLATE <;>
    cases h2 : grpc_compression_options_is_algorithm_enabled ⟨bitset, dflt⟩ GRPC_COMPRESS_GZIP <;>
    cases a <;>
      simp_all [all_algorithms, grpc_compression_options_is_algorithm_enabled, algorithm_index]

theorem batch_filter_no_request {κ ρ : Type} (channeld : channel_data)
    (calld : call_data κ ρ) (b : List mdelem)
    (h : ∀ m ∈ b, m.key ≠ channeld.mdstr_request_compression_algorithm_key) :
    grpc_metadata_batch_filter channeld calld b = (b, calld, 0) := by
  induction b with
  | nil => rfl
  | cons m rest ih =>
    have hm : m.key ≠ channeld.mdstr_request_compression_algorithm_key :=
      h m (List.mem_cons_self m rest)
    have hr := ih (fun x hx => h x (List.mem_cons_of_mem m hx))
    simp [grpc_metadata_batch_filter, compression_md_filter, hm, hr]

theorem batch_filter_append {κ ρ : Type} (channeld : channel_data)
    (calld : call_data κ ρ) (xs ys : List mdelem) :
    grpc_metadata_batch_filter channeld calld (xs ++ ys) =
      ((grpc_metadata_batch_filter channeld calld xs).1 ++
         (grpc_metadata_batch_filter channeld
           (grpc_metadata_batch_filter channeld calld xs).2.1 ys).1,
       (grpc_metadata_batch_filter channeld
         (grpc_metadata_batch_filter channeld calld xs).2.1 ys).2.1,
       (grpc_metadata_batch_filter channeld calld xs).2.2 +
         (grpc_metadata_batch_filter channeld
           (grpc_metadata_batch_filter channeld calld xs).2.1 ys).2.2) := by
  induction xs generalizing calld with
  | nil => simp [grpc_metadata_batch_filter]
  | cons m rest ih =>
    simp only [List.cons_append, grpc_metadata_batch_filter, ih]
    rcases compression_md_filter channeld calld m with ⟨o, c, w⟩
    cases o <;> simp [ih c, Nat.add_assoc]

theorem slice_buffer_length_append (buf : List Slice) (s : Slice) :
    slice_buffer_length (buf ++ [s]) = slice_buffer_length buf + s.length := by
  simp [slice_buffer_length]

theorem continue_inv (L : Nat) (buf : List Slice) (cs : List Chunk)
    (h : slice_buffer_length buf + chunks_length cs = L) :
    drain_inv L (continue_send_message L buf cs).1 ∧
    ∀ b ∈ (continue_send_message L buf cs).2, slice_buffer_length b ≤ L := by
  induction cs generalizing buf with
  | nil =>
    simp [chunks_length] at h
    simp [continue_send_message, drain_inv, h]
  | cons c rest ih =>
    have hcl : chunks_length (c :: rest) = c.slice.length + chunks_length rest := by
      simp [chunks_length]
    by_cases hr : c.ready
    · have h' : slice_buffer_length (buf ++ [c.slice]) + chunks_length rest = L := by
        rw [slice_buffer_length_append]; omega
      by_cases hl : L = slice_buffer_length (buf ++ [c.slice])
      · simp [continue_send_message, hr, hl, drain_inv]
      · have := ih (buf ++ [c.slice]) h'
        simp only [continue_send_message, hr, if_true, hl, if_false]
        refine ⟨this.1, ?_⟩
        intro b hb
        rcases List.mem_cons.mp hb with hb | hb
        · subst hb; omega
        · exact this.2 b hb
    · simp [continue_send_message, hr, drain_inv]
      omega

theorem got_slice_inv (L : Nat) (buf : List Slice) (s : Slice) (rest : List Chunk)
    (h : slice_buffer_length buf + s.length + chunks_length rest = L) :
    drain_inv L (got_slice L buf s rest).1 ∧
    ∀ b ∈ (got_slice L buf s rest).2, slice_buffer_length b ≤ L := by
  have h' : slice_buffer_length (buf ++ [s]) + chunks_length rest = L := by
    rw [slice_buffer_length_append]; omega
  by_cases hl : L = slice_buffer_length (buf ++ [s])
  · simp [got_slice, hl, drain_inv]
  · have := continue_inv L (buf ++ [s]) rest h'
    simp only [got_slice, hl, if_false]
    refine ⟨this.1, ?_⟩
    intro b hb
    rcases List.mem_cons.mp hb with hb | hb
    · subst hb; omega
    · exact this.2 b hb

theorem drive_inv (L : Nat) (r : ContinueResult) (h : drain_inv L r) :
    drain_inv L (drive_continuations L r).1 ∧
    ∀ b ∈ (drive_continuations L r).2, slice_buffer_length b ≤ L := by
  induction r using drive_continuations.induct L with
  | case1 buf s rest ih =>
    have hg := got_slice_inv L buf s rest h
    have hd := ih (hg.1)
    rw [drive_continuations]
    refine ⟨hd.1, ?_⟩
    intro b hb
    rcases List.mem_append.mp hb with hb | hb
    · exact hg.2 b hb
    · exact hd.2 b hb
  | case2 buf rest =>
    simp only [drive_continuations]
    exact ⟨h, by simp⟩
  | case3 buf =>
    simp only [drive_continuations]
    exact ⟨h, by simp⟩

theorem continue_finished_eq (L : Nat) (buf : List Slice) (cs : List Chunk)
    (b : List Slice) (rest : List Chunk)
    (h : (continue_send_message L buf cs).1 = ContinueResult.finished b rest) :
    slice_buffer_length b = L := by
  induction cs generalizing buf with
  | nil => simp [continue_send_message] at h
  | cons c cs' ih =>
    by_cases hr : c.ready
    · by_cases hl : L = slice_buffer_length (buf ++ [c.slice])
      · simp [continue_send_message, hr, hl] at h
        rw [← h.1, ← hl]
      · simp only [continue_send_message, hr, if_true, hl, if_false] at h
        exact ih _ h
    · simp [continue_send_message, hr] at h

theorem got_slice_finished_eq (L : Nat) (buf : List Slice) (s : Slice)
    (rest : List Chunk) (b : List Slice) (r : List Chunk)
    (h : (got_slice L buf s rest).1 = ContinueResult.finished b r) :
    slice_buffer_length b = L := by
  by_cases hl : L = slice_buffer_length (buf ++ [s])
  · simp [got_slice, hl] at h
    rw [← h.1, ← hl]
  · simp only [got_slice, hl, if_false] at h
    exact continue_finished_eq _ _ _ _ _ h

theorem drive_finished_eq (L : Nat) (r : ContinueResult) (b : List Slice)
    (rest : List Chunk)
    (hr : ∀ b' r', r = ContinueResult.finished b' r' → slice_buffer_length b' = L)
    (h : (drive_continuations L r).1 = ContinueResult.finished b rest) :
    slice_buffer_length b = L := by
  induction r using drive_continuations.induct L with
  | case1 buf s rest' ih =>
    rw [drive_continuations] at h
    exact ih (fun b' r' hg => got_slice_finished_eq _ _ _ _ _ _ hg) h
  | case2 buf rest' =>
    simp only [drive_continuations] at h
    cases h
    exact hr _ _ rfl
  | case3 buf =>
    simp only [drive_continuations] at h
    simp at h

theorem drain_finished_eq (L : Nat) (cs : List Chunk) (b : List Slice)
    (rest : List Chunk)
    (h : (drain L cs).1 = ContinueResult.finished b rest) :
    slice_buffer_length b = L := by
  exact drive_finished_eq L (continue_send_message L [] cs).1 b rest
    (fun b' r' hg => continue_finished_eq _ _ _ _ _ hg) h

theorem continue_trace_hit (L : Nat) (buf : List Slice) (cs : List Chunk)
    (b : List Slice) (hb : b ∈ (continue_send_message L buf cs).2)
    (hbl : slice_buffer_length b = L) :
    ∃ rest, (continue_send_message L buf cs).1 = ContinueResult.finished b rest := by
  induction cs generalizing buf with
  | nil => simp [continue_send_message] at hb
  | cons c cs' ih =>
    by_cases hr : c.ready
    · by_cases hl : L = slice_buffer_length (buf ++ [c.slice])
      · have hred : continue_send_message L buf (c :: cs')
            = (ContinueResult.finished (buf ++ [c.slice]) cs', [buf ++ [c.slice]]) := by
          simp [continue_send_message, hr, hl]
        rw [hred] at hb ⊢
        simp only [List.mem_singleton] at hb
        subst hb
        exact ⟨cs', rfl⟩
      · simp only [continue_send_message, hr, if_true, hl, if_false] at hb ⊢
        rcases List.mem_cons.mp hb with hb | hb
        · subst hb; exact absurd hbl.symm hl
        · exact ih _ hb
    · simp [continue_send_message, hr] at hb

theorem got_slice_trace_hit (L : Nat) (buf : List Slice) (s : Slice)
    (rest : List Chunk) (b : List Slice)
    (hb : b ∈ (got_slice L buf s rest).2) (hbl : slice_buffer_length b = L) :
    ∃ r, (got_slice L buf s rest).1 = ContinueResult.finished b r := by
  by_cases hl : L = slice_buffer_length (buf ++ [s])
  · have hred : got_slice L buf s rest
        = (ContinueResult.finished (buf ++ [s]) rest, [buf ++ [s]]) := by
      simp [got_slice, hl]
    rw [hred] at hb ⊢
    simp only [List.mem_singleton] at hb
    subst hb
    exact ⟨rest, rfl⟩
  · simp only [got_slice, hl, if_false] at hb ⊢
    rcases List.mem_cons.mp hb with hb | hb
    · subst hb; exact absurd hbl.symm hl
    · exact continue_trace_hit _ _ _ _ hb hbl

theorem drive_trace_hit (L : Nat) (r : ContinueResult) (b : List Slice)
    (hb : b ∈ (drive_continuations L r).2) (hbl : slice_buffer_length b = L) :
    ∃ rest, (drive_continuations L r).1 = ContinueResult.finished b rest := by
  induction r using drive_continuations.induct L with
  | case1 buf s rest' ih =>
    rw [drive_continuations] at hb ⊢
    rcases List.mem_append.mp hb with hb | hb
    · obtain ⟨rr, hrr⟩ := got_slice_trace_hit L buf s rest' b hb hbl
      rw [hrr]
      simp [drive_continuations]
    · exact ih hb
  | case2 buf rest' => simp [drive_continuations] at hb
  | case3 buf => simp [drive_continuations] at hb

theorem drain_trace_hit (L : Nat) (cs : List Chunk) (b : List Slice)
    (hb : b ∈ (drain L cs).2) (hbl : slice_buffer_length b = L) :
    ∃ rest, (drain L cs).1 = ContinueResult.finished b rest := by
  simp only [drain] at hb ⊢
  rcases List.mem_append.mp hb with hb | hb
  · obtain ⟨rr, hrr⟩ := continue_trace_hit L [] cs b hb hbl
    rw [hrr]
    simp [drive_continuations]
  · exact drive_trace_hit _ _ _ hb hbl

theorem continue_finished_longer (L : Nat) (buf : List Slice) (cs : List Chunk)
    (b : List Slice) (rest : List Chunk)
    (h : (continue_send_message L buf cs).1 = ContinueResult.finished b rest) :
    buf.length < b.length := by
  induction cs generalizing buf with
  | nil => simp [continue_send_message] at h
  | cons c cs' ih =>
    by_cases hr : c.ready
    · by_cases hl : L = slice_buffer_length (buf ++ [c.slice])
      · simp [continue_send_message, hr, hl] at h
        rw [← h.1]
        simp
      · simp only [continue_send_message, hr, if_true, hl, if_false] at h
        have := ih _ h
        simp at this
        omega
    · simp [continue_send_message, hr] at h

theorem check_same_on_both_paths (L : Nat) (buf : List Slice) (s : Slice)
    (rest : List Chunk) :
    ((got_slice L buf s rest).1 = ContinueResult.finished (buf ++ [s]) rest ↔
      L = slice_buffer_length (buf ++ [s])) ∧
    ((continue_send_message L buf (Chunk.mk true s :: rest)).1 =
        ContinueResult.finished (buf ++ [s]) rest ↔
      L = slice_buffer_length (buf ++ [s])) := by
  constructor
  · constructor
    · intro h
      by_contra hl
      simp only [got_slice, hl, if_false] at h
      have := continue_finished_longer _ _ _ _ _ h
      simp at this
    · intro hl
      simp [got_slice, hl]
  · constructor
    · intro h
      by_contra hl
      simp only [continue_send_message, if_true, hl, if_false] at h
      have := continue_finished_longer _ _ _ _ _ h
      simp at this
    · intro hl
      simp [continue_send_message, hl]

theorem drain_bound (L : Nat) (cs : List Chunk) (h : chunks_length cs = L) :
    ∀ b ∈ (drain L cs).2, slice_buffer_length b ≤ L := by
  have h0 : slice_buffer_length [] + chunks_length cs = L := by
    simpa [slice_buffer_length]
  have hc := continue_inv L [] cs h0
  have hd := drive_inv L _ hc.1
  intro b hb
  simp only [drain] at hb
  rcases List.mem_append.mp hb with hb | hb
  · exact hc.2 b hb
  · exact hd.2 b hb

theorem compression_md_filter_slices {κ ρ : Type} (channeld : channel_data)
    (calld : call_data κ ρ) (m : mdelem) :
    (compression_md_filter channeld calld m).2.1.slices = calld.slices := by
  unfold compression_md_filter
  by_cases h : m.key = channeld.mdstr_request_compression_algorithm_key <;> simp [h]

theorem batch_filter_slices {κ ρ : Type} (channeld : channel_data)
    (calld : call_data κ ρ) (b : List mdelem) :
    (grpc_metadata_batch_filter channeld calld b).2.1.slices = calld.slices := by
  induction b generalizing calld with
  | nil => rfl
  | cons m rest ih =>
    simp only [grpc_metadata_batch_filter]
    rcases hm : compression_md_filter channeld calld m with ⟨o, c, w⟩
    have hc : c.slices = calld.slices := by
      have := compression_md_filter_slices channeld calld m
      rw [hm] at this
      exact this
    cases o <;> simp [ih c, hc]

theorem process_send_initial_metadata_slices {κ ρ : Type} (channeld : channel_data)
    (calld : call_data κ ρ) (b : List mdelem) :
    (process_send_initial_metadata channeld calld b).2.1.slices = calld.slices := by
  unfold process_send_initial_metadata
  by_cases h : (grpc_metadata_batch_filter channeld calld b).2.1.has_compression_algorithm <;>
    simp [h, batch_filter_slices]

theorem md_step_slices {κ ρ : Type} (channeld : channel_data) (calld : call_data κ ρ)
    (op : grpc_transport_stream_op κ ρ) :
    (md_step channeld calld op).1.slices = calld.slices := by
  unfold md_step
  cases op.send_initial_metadata <;> simp [process_send_initial_metadata_slices]

theorem skip_compression_iff {κ ρ : Type} (channeld : channel_data)
    (calld : call_data κ ρ) :
    skip_compression channeld calld = true ↔
      ((calld.has_compression_algorithm = true ∧
        calld.compression_algorithm = GRPC_COMPRESS_NONE) ∨
       (calld.has_compression_algorithm = false ∧
        channeld.default_compression_algorithm = GRPC_COMPRESS_NONE)) := by
  unfold skip_compression
  cases h : calld.has_compression_algorithm <;> simp [h]

theorem internal_compress_eq_pow : GRPC_WRITE_INTERNAL_COMPRESS = 2 ^ 31 := by decide

/-- C1: for every message drained under the byte-source contract (total chunk
bytes = send_length), the buffer's accumulated byte length never exceeds
send_length at any point of the drain (synchronous loop and resumed
continuations alike); the machine hands the buffer to finish_send_message
exactly when the accumulated length equals send_length; and the completion
test at an append is literally the same equality on the continuation path
(got_slice) and on the synchronous loop path (continue_send_message). -/
theorem C1_drain_never_exceeds_and_finishes_at_send_length (L : Nat) (cs : List Chunk)
    (hcontract : chunks_length cs = L) :
    (∀ b ∈ (drain L cs).2, slice_buffer_length b ≤ L) ∧
    (∀ b rest, (drain L cs).1 = ContinueResult.finished b rest →
      slice_buffer_length b = L) ∧
    (∀ b ∈ (drain L cs).2, slice_buffer_length b = L →
      ∃ rest, (drain L cs).1 = ContinueResult.finished b rest) ∧
    (∀ buf s rest,
      ((got_slice L buf s rest).1 = ContinueResult.finished (buf ++ [s]) rest ↔
        L = slice_buffer_length (buf ++ [s])) ∧
      ((continue_send_message L buf (Chunk.mk true s :: rest)).1 =
          ContinueResult.finished (buf ++ [s]) rest ↔
        L = slice_buffer_length (buf ++ [s]))) :=
  ⟨drain_bound L cs hcontract,
   fun b rest h => drain_finished_eq L cs b rest h,
   fun b hb hbl => drain_trace_hit L cs b hb hbl,
   fun buf s rest => check_same_on_both_paths L buf s rest⟩

/-- C1 witness: the byte-source contract holds for a concrete source (one
ready chunk of two bytes, one pending chunk of one byte, send_length 3) and
the theorem applies to it. -/
theorem C1_drain_witness :
    chunks_length [Chunk.mk true [1, 2], Chunk.mk false [3]] = 3 ∧
    ((∀ b ∈ (drain 3 [Chunk.mk true [1, 2], Chunk.mk false [3]]).2,
        slice_buffer_length b ≤ 3) ∧
     (∀ b rest, (drain 3 [Chunk.mk true [1, 2], Chunk.mk false [3]]).1 =
        ContinueResult.finished b rest → slice_buffer_length b = 3) ∧
     (∀ b ∈ (drain 3 [Chunk.mk true [1, 2], Chunk.mk false [3]]).2,
        slice_buffer_length b = 3 →
        ∃ rest, (drain 3 [Chunk.mk true [1, 2], Chunk.mk false [3]]).1 =
          ContinueResult.finished b rest) ∧
     (∀ buf s rest,
       ((got_slice 3 buf s rest).1 = ContinueResult.finished (buf ++ [s]) rest ↔
         (3 : Nat) = slice_buffer_length (buf ++ [s])) ∧
       ((continue_send_message 3 buf (Chunk.mk true s :: rest)).1 =
           ContinueResult.finished (buf ++ [s]) rest ↔
         (3 : Nat) = slice_buffer_length (buf ++ [s])))) :=
  ⟨by decide,
   C1_drain_never_exceeds_and_finishes_at_send_length 3
     [Chunk.mk true [1, 2], Chunk.mk false [3]] (by decide)⟩

/-- C2: once a message went through finish_send_message, the downstream
completion (send_done) firing with any success flag resets the slice buffer
and performs exactly one completion invocation, of the originally-saved
on_complete callback, with that very flag; the forwarded operation's
completion was spliced to the filter's own send_done closure. Covers both
the success and the downstream-failure flag, and any transform outcome. -/
theorem C2_completion_exactly_once (κ ρ : Type)
    (compressor : grpc_compression_algorithm → List Slice → Option (List Slice))
    (calld : call_data κ ρ) (s : Int) :
    (send_done (finish_send_message compressor calld).1 s).2 =
      [(calld.send_op.on_complete, s)] ∧
    (send_done (finish_send_message compressor calld).1 s).1.slices = [] ∧
    (finish_send_message compressor calld).2.on_complete =
      grpc_closure.send_done_closure := by
  cases h : compressor calld.compression_algorithm calld.slices <;>
    simp [finish_send_message, send_done, h]

/-- C3 (amended): when the transform succeeds, its output replaces the buffer
in the forwarded replacement stream and the flags gain the internally-
compressed bit; when it declines, the original bytes and flags are
forwarded unchanged through the filter's replacement stream. The
internally-compressed bit of the forwarded flags is set iff the transform
succeeded OR the bit was already set on the incoming operation's flags (at
bit 31, the GRPC_WRITE_INTERNAL_COMPRESS position). -/
theorem C3_transform_adoption_and_flag (κ ρ : Type)
    (compressor : grpc_compression_algorithm → List Slice → Option (List Slice))
    (calld : call_data κ ρ) :
    (∀ out, compressor calld.compression_algorithm calld.slices = some out →
      (finish_send_message compressor calld).2.send_message =
        some (grpc_byte_stream.slice_stream out
          (calld.send_flags ||| GRPC_WRITE_INTERNAL_COMPRESS)) ∧
      Nat.testBit (finish_send_message compressor calld).1.send_flags 31 = true) ∧
    (compressor calld.compression_algorithm calld.slices = none →
      (finish_send_message compressor calld).2.send_message =
        some (grpc_byte_stream.slice_stream calld.slices calld.send_flags) ∧
      (finish_send_message compressor calld).1.send_flags = calld.send_flags ∧
      (finish_send_message compressor calld).2.on_complete =
        grpc_closure.send_done_closure) ∧
    (Nat.testBit (finish_send_message compressor calld).1.send_flags 31 =
      ((compressor calld.compression_algorithm calld.slices).isSome ||
        Nat.testBit calld.send_flags 31)) := by
  cases h : compressor calld.compression_algorithm calld.slices with
  | none => simp [finish_send_message, h]
  | some out =>
    simp [finish_send_message, h, internal_compress_eq_pow, Nat.testBit_lor]
    exact Or.inr (by decide)

/-- C3 counterexample: at a concrete call state whose incoming send flags
already carry GRPC_WRITE_INTERNAL_COMPRESS, the transform declines (reports
none) and yet the forwarded flags have the internally-compressed bit set —
refuting "the bit is set if and only if the transform reported success". -/
theorem C3_flag_iff_counterexample :
    compress_decline calld_flagged.compression_algorithm calld_flagged.slices = none ∧
    Nat.testBit (finish_send_message compress_decline calld_flagged).1.send_flags 31 =
      true := by
  constructor
  · rfl
  · decide

/-- C4: an operation carrying a send message is forwarded unchanged with the
slice buffer untouched (the drain machine skipped) exactly when — after the
initial-metadata step — either a call-specific algorithm was resolved and
it is the no-compression sentinel, or none was resolved and the channel
default is the sentinel, or the message's flags carry the explicit
GRPC_WRITE_NO_COMPRESS bit. -/
theorem C4_skip_exactly_when (κ ρ : Type) (channeld : channel_data)
    (calld : call_data κ ρ) (op : grpc_transport_stream_op κ ρ)
    (bs : grpc_byte_stream) (hmsg : op.send_message = some bs) :
    ((compress_start_transport_stream_op channeld calld op).2.2 =
        StartResult.forwarded op ∧
     (compress_start_transport_stream_op channeld calld op).1.slices = calld.slices) ↔
      (((md_step channeld calld op).1.has_compression_algorithm = true ∧
        (md_step channeld calld op).1.compression_algorithm = GRPC_COMPRESS_NONE) ∨
       ((md_step channeld calld op).1.has_compression_algorithm = false ∧
        channeld.default_compression_algorithm = GRPC_COMPRESS_NONE) ∨
       bs.stream_flags &&& GRPC_WRITE_NO_COMPRESS ≠ 0) := by
  have hslices := md_step_slices channeld calld op
  have hiff := skip_compression_iff channeld (md_step channeld calld op).1
  constructor
  · rintro ⟨hfwd, -⟩
    by_cases hfl : bs.stream_flags &&& GRPC_WRITE_NO_COMPRESS = 0
    · cases hsk : skip_compression channeld (md_step channeld calld op).1 with
      | true =>
        rcases hiff.mp hsk with h | h
        · exact Or.inl h
        · exact Or.inr (Or.inl h)
      | false =>
        exfalso
        simp [compress_start_transport_stream_op, hmsg, hsk, hfl] at hfwd
    · exact Or.inr (Or.inr hfl)
  · intro h
    have hsk : skip_compression channeld (md_step channeld calld op).1 = true ∨
        bs.stream_flags &&& GRPC_WRITE_NO_COMPRESS ≠ 0 := by
      rcases h with h | h | h
      · exact Or.inl (hiff.mpr (Or.inl h))
      · exact Or.inl (hiff.mpr (Or.inr h))
      · exact Or.inr h
    rcases hsk with hsk | hfl
    · constructor <;> simp [compress_start_transport_stream_op, hmsg, hsk, hslices]
    · constructor <;> simp [compress_start_transport_stream_op, hmsg, hfl, hslices]

/-- C4 witness: a concrete operation that explicitly marks its message
"do not compress" satisfies the hypothesis, and the theorem applies. -/
theorem C4_skip_witness :
    opNC.send_message = some (grpc_byte_stream.source 1 GRPC_WRITE_NO_COMPRESS
      [Chunk.mk true [5]]) ∧
    (((compress_start_transport_stream_op channeldW calldE opNC).2.2 =
        StartResult.forwarded opNC ∧
      (compress_start_transport_stream_op channeldW calldE opNC).1.slices =
        calldE.slices) ↔
      (((md_step channeldW calldE opNC).1.has_compression_algorithm = true ∧
        (md_step channeldW calldE opNC).1.compression_algorithm = GRPC_COMPRESS_NONE) ∨
       ((md_step channeldW calldE opNC).1.has_compression_algorithm = false ∧
        channeldW.default_compression_algorithm = GRPC_COMPRESS_NONE) ∨
       (grpc_byte_stream.source 1 GRPC_WRITE_NO_COMPRESS
         [Chunk.mk true [5]]).stream_flags &&& GRPC_WRITE_NO_COMPRESS ≠ 0)) :=
  ⟨rfl, C4_skip_exactly_when Nat Unit channeldW calldE opNC
    (grpc_byte_stream.source 1 GRPC_WRITE_NO_COMPRESS [Chunk.mk true [5]]) rfl⟩

/-- C5: on a channel built with algorithm A enabled, a call whose outgoing
initial-metadata batch carries one requested-algorithm entry naming A ends
negotiation with compression_algorithm = A; the requested-algorithm entry
is removed; and the batch gains exactly the channel's precomputed
"grpc-encoding: name(A)" element (a shared reference to the table entry, as
the last conjunct records) followed by the channel's accept-encoding
element. -/
theorem C5_enabled_request_adopted (κ ρ : Type) (bitset : Nat)
    (dflt A : grpc_compression_algorithm) (channeld : channel_data)
    (acquired : List md_handle) (mem : call_data κ ρ) (pre post : List mdelem)
    (hinit : init_channel_elem bitset dflt = some (channeld, acquired))
    (hA : Nat.testBit bitset (algorithm_index A) = true)
    (hpre : ∀ m ∈ pre, m.key ≠ GRPC_COMPRESS_REQUEST_ALGORITHM_KEY)
    (hpost : ∀ m ∈ post, m.key ≠ GRPC_COMPRESS_REQUEST_ALGORITHM_KEY) :
    (process_send_initial_metadata channeld (init_call_elem mem)
        (pre ++ mdelem.mk GRPC_COMPRESS_REQUEST_ALGORITHM_KEY
            (grpc_compression_algorithm_name A) :: post)).2.1.compression_algorithm =
      A ∧
    (process_send_initial_metadata channeld (init_call_elem mem)
        (pre ++ mdelem.mk GRPC_COMPRESS_REQUEST_ALGORITHM_KEY
            (grpc_compression_algorithm_name A) :: post)).1 =
      (pre ++ post) ++
        [⟨"grpc-encoding", grpc_compression_algorithm_name A⟩,
         channeld.mdelem_accept_encoding] ∧
    channeld.mdelem_compression_algorithms A =
      some ⟨"grpc-encoding", grpc_compression_algorithm_name A⟩ := by
  obtain ⟨hkey, hopts, -⟩ := init_channel_elem_fields _ _ _ _ hinit
  have htab := init_channel_elem_table _ _ _ _ hinit A hA
  have h1 : grpc_metadata_batch_filter channeld (init_call_elem mem) pre
      = (pre, init_call_elem mem, 0) :=
    batch_filter_no_request _ _ _ (by rw [hkey]; exact hpre)
  have hreq : compression_md_filter channeld (init_call_elem mem)
      ⟨GRPC_COMPRESS_REQUEST_ALGORITHM_KEY, grpc_compression_algorithm_name A⟩
      = (none,
         { init_call_elem mem with
             compression_algorithm := A,
             has_compression_algorithm := true },
         0) := by
    simp [compression_md_filter, hkey, hopts, parse_name_roundtrip,
      grpc_compression_options_is_algorithm_enabled, hA]
  have h2 : grpc_metadata_batch_filter channeld (init_call_elem mem)
      (⟨GRPC_COMPRESS_REQUEST_ALGORITHM_KEY, grpc_compression_algorithm_name A⟩ :: post)
      = (post,
         { init_call_elem mem with
             compression_algorithm := A,
             has_compression_algorithm := true },
         0) := by
    simp [grpc_metadata_batch_filter, hreq,
      batch_filter_no_request channeld
        { init_call_elem mem with
            compression_algorithm := A,
            has_compression_algorithm := true } post (by rw [hkey]; exact hpost)]
  have h3 : grpc_metadata_batch_filter channeld (init_call_elem mem)
      (pre ++ ⟨GRPC_COMPRESS_REQUEST_ALGORITHM_KEY, grpc_compression_algorithm_name A⟩ :: post)
      = (pre ++ post,
         { init_call_elem mem with
             compression_algorithm := A,
             has_compression_algorithm := true },
         0) := by
    rw [batch_filter_append, h1]
    simp [h2]
  refine ⟨?_, ?_, htab⟩ <;>
    simp [process_send_initial_metadata, h3, htab]

/-- C5 witness: on the channel with bitset 7 (all three algorithms enabled,
default = sentinel), a batch requesting "gzip" next to one unrelated header
satisfies every hypothesis, and the theorem applies. -/
theorem C5_enabled_request_witness :
    ∃ channeld acquired,
      init_channel_elem 7 GRPC_COMPRESS_NONE = some (channeld, acquired) ∧
      ((process_send_initial_metadata channeld (init_call_elem memW)
          ([] ++ mdelem.mk GRPC_COMPRESS_REQUEST_ALGORITHM_KEY
              (grpc_compression_algorithm_name GRPC_COMPRESS_GZIP)
            :: [mdelem.mk "user-agent" "x"])).2.1.compression_algorithm =
        GRPC_COMPRESS_GZIP ∧
      (process_send_initial_metadata channeld (init_call_elem memW)
          ([] ++ mdelem.mk GRPC_COMPRESS_REQUEST_ALGORITHM_KEY
              (grpc_compression_algorithm_name GRPC_COMPRESS_GZIP)
            :: [mdelem.mk "user-agent" "x"])).1 =
        ([] ++ [mdelem.mk "user-agent" "x"]) ++
          [⟨"grpc-encoding", grpc_compression_algorithm_name GRPC_COMPRESS_GZIP⟩,
           channeld.mdelem_accept_encoding] ∧
      channeld.mdelem_compression_algorithms GRPC_COMPRESS_GZIP =
        some ⟨"grpc-encoding", grpc_compression_algorithm_name GRPC_COMPRESS_GZIP⟩) := by
  cases hinit : init_channel_elem 7 GRPC_COMPRESS_NONE with
  | none =>
    have hs : (init_channel_elem 7 GRPC_COMPRESS_NONE).isSome = true := by decide
    rw [hinit] at hs
    simp at hs
  | some p =>
    obtain ⟨cd, acq⟩ := p
    exact ⟨cd, acq, rfl,
      C5_enabled_request_adopted Nat Unit 7 GRPC_COMPRESS_NONE GRPC_COMPRESS_GZIP cd acq
        memW [] [mdelem.mk "user-agent" "x"] hinit (by decide) (by decide) (by decide)⟩

/-- C6: when the single requested-algorithm entry names an unknown value
(parse fails) or a known algorithm outside the channel's enabled set,
negotiation resolves the call's compression_algorithm to the
no-compression sentinel, at least one warning is logged, and the call
proceeds: processing completes normally, with the selected-algorithm and
accept-encoding elements still appended to the batch — there is no abort
and no out-of-band error path. -/
theorem C6_fallback_to_none (κ ρ : Type) (bitset : Nat)
    (dflt : grpc_compression_algorithm) (v : String) (channeld : channel_data)
    (acquired : List md_handle) (mem : call_data κ ρ) (pre post : List mdelem)
    (hinit : init_channel_elem bitset dflt = some (channeld, acquired))
    (hv : grpc_compression_algorithm_parse v = none ∨
          ∃ a, grpc_compression_algorithm_parse v = some a ∧
               Nat.testBit bitset (algorithm_index a) = false)
    (hpre : ∀ m ∈ pre, m.key ≠ GRPC_COMPRESS_REQUEST_ALGORITHM_KEY)
    (hpost : ∀ m ∈ post, m.key ≠ GRPC_COMPRESS_REQUEST_ALGORITHM_KEY) :
    (process_send_initial_metadata channeld (init_call_elem mem)
        (pre ++ mdelem.mk GRPC_COMPRESS_REQUEST_ALGORITHM_KEY v
          :: post)).2.1.compression_algorithm = GRPC_COMPRESS_NONE ∧
    1 ≤ (process_send_initial_metadata channeld (init_call_elem mem)
        (pre ++ mdelem.mk GRPC_COMPRESS_REQUEST_ALGORITHM_KEY v :: post)).2.2 ∧
    (process_send_initial_metadata channeld (init_call_elem mem)
        (pre ++ mdelem.mk GRPC_COMPRESS_REQUEST_ALGORITHM_KEY v :: post)).1 =
      (pre ++ post) ++
        [(channeld.mdelem_compression_algorithms GRPC_COMPRESS_NONE).getD ⟨"", ""⟩,
         channeld.mdelem_accept_encoding] := by
  obtain ⟨hkey, hopts, -⟩ := init_channel_elem_fields _ _ _ _ hinit
  have h1 : grpc_metadata_batch_filter channeld (init_call_elem mem) pre
      = (pre, init_call_elem mem, 0) :=
    batch_filter_no_request _ _ _ (by rw [hkey]; exact hpre)
  have hreq : ∃ w, 1 ≤ w ∧ compression_md_filter channeld (init_call_elem mem)
      ⟨GRPC_COMPRESS_REQUEST_ALGORITHM_KEY, v⟩
      = (none,
         { init_call_elem mem with
             compression_algorithm := GRPC_COMPRESS_NONE,
             has_compression_algorithm := true },
         w) := by
    rcases hv with hv | ⟨a, ha, hdis⟩
    · cases he : grpc_compression_options_is_algorithm_enabled channeld.compression_options
          GRPC_COMPRESS_NONE with
      | true => exact ⟨1, le_refl 1, by simp [compression_md_filter, hkey, hv, he]⟩
      | false => exact ⟨2, by norm_num, by simp [compression_md_filter, hkey, hv, he]⟩
    · refine ⟨1, le_refl 1, ?_⟩
      have he : grpc_compression_options_is_algorithm_enabled channeld.compression_options a
          = false := by
        rw [hopts]; exact hdis
      simp [compression_md_filter, hkey, ha, he]
  obtain ⟨w, hw, hreq⟩ := hreq
  have h2 : grpc_metadata_batch_filter channeld (init_call_elem mem)
      (⟨GRPC_COMPRESS_REQUEST_ALGORITHM_KEY, v⟩ :: post)
      = (post,
         { init_call_elem mem with
             compression_algorithm := GRPC_COMPRESS_NONE,
             has_compression_algorithm := true },
         w) := by
    simp [grpc_metadata_batch_filter, hreq,
      batch_filter_no_request channeld
        { init_call_elem mem with
            compression_algorithm := GRPC_COMPRESS_NONE,
            has_compression_algorithm := true } post (by rw [hkey]; exact hpost)]
  have h3 : grpc_metadata_batch_filter channeld (init_call_elem mem)
      (pre ++ ⟨GRPC_COMPRESS_REQUEST_ALGORITHM_KEY, v⟩ :: post)
      = (pre ++ post,
         { init_call_elem mem with
             compression_algorithm := GRPC_COMPRESS_NONE,
             has_compression_algorithm := true },
         w) := by
    rw [batch_filter_append, h1]
    simp [h2]
  refine ⟨?_, ?_, ?_⟩ <;> simp [process_send_initial_metadata, h3, hw]

/-- C6 witness: on the channel with bitset 7 and default = sentinel, a batch
requesting the unknown name "bogus" satisfies every hypothesis, and the
theorem applies. -/
theorem C6_fallback_witness :
    ∃ channeld acquired,
      init_channel_elem 7 GRPC_COMPRESS_NONE = some (channeld, acquired) ∧
      ((process_send_initial_metadata channeld (init_call_elem memW)
          ([] ++ mdelem.mk GRPC_COMPRESS_REQUEST_ALGORITHM_KEY "bogus"
            :: [mdelem.mk "user-agent" "x"])).2.1.compression_algorithm =
        GRPC_COMPRESS_NONE ∧
      1 ≤ (process_send_initial_metadata channeld (init_call_elem memW)
          ([] ++ mdelem.mk GRPC_COMPRESS_REQUEST_ALGORITHM_KEY "bogus"
            :: [mdelem.mk "user-agent" "x"])).2.2 ∧
      (process_send_initial_metadata channeld (init_call_elem memW)
          ([] ++ mdelem.mk GRPC_COMPRESS_REQUEST_ALGORITHM_KEY "bogus"
            :: [mdelem.mk "user-agent" "x"])).1 =
        ([] ++ [mdelem.mk "user-agent" "x"]) ++
          [(channeld.mdelem_compression_algorithms GRPC_COMPRESS_NONE).getD ⟨"", ""⟩,
           channeld.mdelem_accept_encoding]) := by
  cases hinit : init_channel_elem 7 GRPC_COMPRESS_NONE with
  | none =>
    have hs : (init_channel_elem 7 GRPC_COMPRESS_NONE).isSome = true := by decide
    rw [hinit] at hs
    simp at hs
  | some p =>
    obtain ⟨cd, acq⟩ := p
    exact ⟨cd, acq, rfl,
      C6_fallback_to_none Nat Unit 7 GRPC_COMPRESS_NONE "bogus" cd acq memW
        [] [mdelem.mk "user-agent" "x"] hinit (Or.inl (by decide))
        (by decide) (by decide)⟩

/-- C7 counterexample: for a zero-length message whose source offers one
ready (empty) chunk, the drain loop body executes once — the instrumented
append history has one entry, recording one gpr_slice_buffer_add of the
empty slice — before the machine finishes. This refutes "the drain loop
body never executes" for expected_length = 0: continue_send_message
requests a chunk before any length check. -/
theorem C7_loop_body_runs_counterexample :
    (drain 0 [Chunk.mk true []]).2.length = 1 ∧
    (drain 0 [Chunk.mk true []]).1 = ContinueResult.finished [[]] [] := by
  constructor <;>
    simp [drain, continue_send_message, drive_continuations, slice_buffer_length]

/-- C7 (amended): a zero-length message does not complete draining before
issuing one chunk request; when the source's first chunk is ready (and
empty, as the length contract demands), draining completes immediately
after exactly one loop-body execution — the machine never suspends and the
buffer is handed straight to finish_send_message (the compression step and
forwarding). -/
theorem C7_zero_length_completes_after_one_pull (s : Slice) (rest : List Chunk)
    (hs : s.length = 0) :
    drain 0 (Chunk.mk true s :: rest) = (ContinueResult.finished [s] rest, [[s]]) := by
  have h : (0 : Nat) = slice_buffer_length ([] ++ [s]) := by
    simp [slice_buffer_length, hs]
  simp [drain, continue_send_message, ← h, drive_continuations, slice_buffer_length, hs]

/-- C7 witness: the amended theorem applied to the concrete empty chunk. -/
theorem C7_zero_length_witness :
    drain 0 (Chunk.mk true [] :: []) =
      (ContinueResult.finished [[]] [], [[[]]]) :=
  C7_zero_length_completes_after_one_pull [] [] rfl

/-- C8: whenever channel construction succeeds, the accept-encoding metadata
element is keyed "grpc-accept-encoding" and its value is the comma-joined
list of the canonical names of exactly the enabled algorithms other than
the no-compression sentinel, in index order. -/
theorem C8_accept_encoding_value (bitset : Nat) (dflt : grpc_compression_algorithm)
    (channeld : channel_data) (acquired : List md_handle)
    (h : init_channel_elem bitset dflt = some (channeld, acquired)) :
    channeld.mdelem_accept_encoding =
      ⟨"grpc-accept-encoding",
       String.intercalate ","
         ((all_algorithms.filter fun a =>
             grpc_compression_options_is_algorithm_enabled ⟨bitset, dflt⟩ a
               && !(a == GRPC_COMPRESS_NONE)).map grpc_compression_algorithm_name)⟩ := by
  unfold init_channel_elem at h
  cases hd : grpc_compression_options_is_algorithm_enabled ⟨bitset, dflt⟩ dflt with
  | false => simp [hd] at h
  | true =>
    simp only [hd, Bool.true_eq_false, if_false, Option.some.injEq, Prod.mk.injEq] at h
    obtain ⟨hcd, -⟩ := h
    subst hcd
    cases h0 : grpc_compression_options_is_algorithm_enabled ⟨bitset, dflt⟩ GRPC_COMPRESS_NONE <;>
    cases h1 : grpc_compression_options_is_algorithm_enabled ⟨bitset, dflt⟩ GRPC_COMPRESS_DEFLATE <;>
    cases h2 : grpc_compression_options_is_algorithm_enabled ⟨bitset, dflt⟩ GRPC_COMPRESS_GZIP <;>
      simp [all_algorithms, h0, h1, h2, algorithm_index, List.filter] <;> decide

/-- C8 witness: at bitset 7 (identity, deflate and gzip all enabled) the
accept-encoding element is "grpc-accept-encoding: deflate,gzip". -/
theorem C8_accept_encoding_witness :
    ∃ channeld acquired,
      init_channel_elem 7 GRPC_COMPRESS_NONE = some (channeld, acquired) ∧
      channeld.mdelem_accept_encoding =
        ⟨"grpc-accept-encoding",
         String.intercalate ","
           ((all_algorithms.filter fun a =>
               grpc_compression_options_is_algorithm_enabled ⟨7, GRPC_COMPRESS_NONE⟩ a
                 && !(a == GRPC_COMPRESS_NONE)).map grpc_compression_algorithm_name)⟩ := by
  cases hinit : init_channel_elem 7 GRPC_COMPRESS_NONE with
  | none =>
    have hs : (init_channel_elem 7 GRPC_COMPRESS_NONE).isSome = true := by decide
    rw [hinit] at hs
    simp at hs
  | some p =>
    obtain ⟨cd, acq⟩ := p
    exact ⟨cd, acq, rfl, C8_accept_encoding_value 7 GRPC_COMPRESS_NONE cd acq hinit⟩

/-- C9: evaluation at the failing configuration (bitset 1: only the sentinel
enabled, default = sentinel). Construction acquires handles for the three
keys, the table entry of the sentinel only, and the accept-encoding
element; teardown nevertheless releases the table entries of DEFLATE and
GZIP — handles construction never acquired (in the C, unrefs of
uninitialized pointers) — for every channel state. -/
theorem C9_teardown_releases_unacquired_entries :
    (init_channel_elem 1 GRPC_COMPRESS_NONE).map Prod.snd =
      some [md_handle.request_key, md_handle.outgoing_key, md_handle.capabilities_key,
            md_handle.algorithm_elem GRPC_COMPRESS_NONE, md_handle.accept_encoding_elem] ∧
    ∀ channeld : channel_data,
      md_handle.algorithm_elem GRPC_COMPRESS_DEFLATE ∈ destroy_channel_elem channeld ∧
      md_handle.algorithm_elem GRPC_COMPRESS_GZIP ∈ destroy_channel_elem channeld := by
  refine ⟨by decide, fun channeld => ⟨?_, ?_⟩⟩ <;>
    simp [destroy_channel_elem, all_algorithms]

/-- C10: whenever compress_start_transport_stream_op enters the machine for
an operation (snapshotting it into the call state), the operation later
forwarded by finish_send_message — from any drained buffer and any
transform — agrees with the incoming operation on send_initial_metadata
and on every other field (the opaque other_fields component), while
send_message is replaced by the filter's replacement slice-buffer stream
and on_complete by the filter's send_done closure, the original
on_complete being saved in post_send. -/
theorem C10_forwarded_op_frame (κ ρ : Type) (channeld : channel_data)
    (calld calld2 : call_data κ ρ) (op : grpc_transport_stream_op κ ρ)
    (compressor : grpc_compression_algorithm → List Slice → Option (List Slice))
    (drained : List Slice)
    (h : (compress_start_transport_stream_op channeld calld op).2.2 =
      StartResult.entered calld2) :
    (finish_send_message compressor
        { calld2 with slices := drained }).2.send_initial_metadata =
      op.send_initial_metadata ∧
    (finish_send_message compressor
        { calld2 with slices := drained }).2.other_fields = op.other_fields ∧
    (∃ backing fl, (finish_send_message compressor
        { calld2 with slices := drained }).2.send_message =
      some (grpc_byte_stream.slice_stream backing fl)) ∧
    (finish_send_message compressor
        { calld2 with slices := drained }).2.on_complete =
      grpc_closure.send_done_closure ∧
    (finish_send_message compressor
        { calld2 with slices := drained }).1.post_send = op.on_complete := by
  have hsnap : calld2.send_op = op := by
    unfold compress_start_transport_stream_op at h
    cases hmsg : op.send_message with
    | none => rw [hmsg] at h; simp at h
    | some bs =>
      rw [hmsg] at h
      by_cases hc : skip_compression channeld (md_step channeld calld op).1 = false ∧
          bs.stream_flags &&& GRPC_WRITE_NO_COMPRESS = 0
      · simp only [hc, and_self, if_true, StartResult.entered.injEq] at h
        rw [← h]
      · simp [hc] at h
  cases hc : compressor calld2.compression_algorithm drained <;>
    simp [finish_send_message, hc, hsnap]

/-- C10 witness: a concrete channel, call state and operation that enter the
machine, with a concrete transform and drained buffer. -/
theorem C10_forwarded_op_witness :
    ∃ calld2,
      (compress_start_transport_stream_op channeldW calldE opE).2.2 =
        StartResult.entered calld2 ∧
      ((finish_send_message compress_const
          { calld2 with slices := [[9]] }).2.send_initial_metadata =
        opE.send_initial_metadata ∧
      (finish_send_message compress_const
          { calld2 with slices := [[9]] }).2.other_fields = opE.other_fields ∧
      (∃ backing fl, (finish_send_message compress_const
          { calld2 with slices := [[9]] }).2.send_message =
        some (grpc_byte_stream.slice_stream backing fl)) ∧
      (finish_send_message compress_const
          { calld2 with slices := [[9]] }).2.on_complete =
        grpc_closure.send_done_closure ∧
      (finish_send_message compress_const
          { calld2 with slices := [[9]] }).1.post_send = opE.on_complete) := by
  refine ⟨{ calldE with send_op := opE, send_length := 3, send_flags := 0 }, ?_, ?_⟩
  · decide
  · exact C10_forwarded_op_frame Nat Unit channeldW calldE
      { calldE with send_op := opE, send_length := 3, send_flags := 0 }
      opE compress_const [[9]] (by decide)
